import Mathlib

/-!
# Verification of the arbitrage bot core (opportunity scanner, MEV submission, scheduler)

Shallow embedding of the repository's JavaScript core and of the execution
contract's entry-point validation, with theorems checking the natural-language
specification against it.

Modelling conventions:
* JS `BigInt` values are `Int` (arbitrary precision, division truncating
  toward zero, written `Int.tdiv`).
* JS `number` fractions that feed integer arithmetic (the slippage buffer)
  are `ℚ`; `Math.round` is Mathlib's `round` (both are ⌊x + 1/2⌋ on the
  nonnegative values that occur here).
* A JS value that may be `null`/`undefined` is an `Option`.
* An `async` call that may reject is an `Except String` value supplied by an
  oracle (the network is not modelled; each network-bound call is a function
  parameter, so theorems quantify over every possible network behaviour).
-/

namespace ArbBot

/-- Ethereum addresses, hex strings in the source. -/
abbrev Address := String

/-- `ethers.ZeroAddress`. -/
def ZeroAddress : Address := "0x0000000000000000000000000000000000000000"

/-- A quote as produced by `dexService` / `aggregatorService`:
`dex` is set by the on-chain DEX clients (`'uniswap'` / `'aerodrome'`),
`aggregator` by the Odos client; `toTokenAmount` is the output amount
(a BigInt-convertible string in the source). -/
structure Quote where
  dex : Option String
  aggregator : Option String
  toTokenAmount : Int
  fee : Option Nat
  stable : Option Bool
deriving Repr, DecidableEq, Inhabited

/-- The contract's `SwapStep` struct as built in `opportunityScanner.js`. -/
structure SwapStep where
  dexType : Nat
  router : Address
  tokenIn : Address
  tokenOut : Address
  fee : Nat
  stable : Bool
  factory : Address
  amountOutMin : Int
  data : String
deriving Repr, DecidableEq, Inhabited

/-- One candidate hop `{from, to, dex?}` from the path generator. -/
structure Hop where
  fromToken : Address
  toToken : Address
  dex : Option String
deriving Repr, DecidableEq, Inhabited

/-- Result of the Odos `assemble` endpoint (`{to, data}`); `to` is spelled
`toAddr` because `to` is reserved in Lean. -/
structure Assembled where
  toAddr : Address
  data : String
deriving Repr, DecidableEq

/-- The opportunity object returned by `evaluatePath`. -/
structure Opportunity where
  netProfit : Int
  profitPercent : ℚ
  initialAmount : Int
  finalAmount : Int
  asset : Address
  swapSteps : List SwapStep
deriving Repr, DecidableEq

-- DEX type constants matching the smart contract
def DEX_GENERIC : Nat := 0
def DEX_UNISWAP_V3 : Nat := 1
def DEX_AERODROME : Nat := 2
def DEX_PANCAKESWAP_V3 : Nat := 3

def AERODROME_ROUTER : Address := "0xcF77a3Ba9A5CA399B7c97c74d54e5b1Beb874E43"
def AERODROME_FACTORY : Address := "0x420DD381b31aEf6683db6B902084cB0FFECe40Da"
def UNISWAP_V3_ROUTER : Address := "0x2626664c2603336E57B271c5C0b26F421741e481"

/-- `config.slippageBuffer || 0.003`: JS `||` falls back on `undefined`
(`none`) and on the falsy value `0`. -/
def slippageBufferVal (cfg : Option ℚ) : ℚ :=
  match cfg with
  | none => 3 / 1000
  | some s => if s = 0 then 3 / 1000 else s

/-- `BigInt(Math.round((1 - (config.slippageBuffer || 0.003)) * 10000))`. -/
def slippageFactor (cfg : Option ℚ) : Int :=
  round ((1 - slippageBufferVal cfg) * 10000)

/-- `(BigInt(quote.toTokenAmount) * slippageFactor) / 10000n` —
BigInt division truncates toward zero. -/
def amountOutMinOf (cfg : Option ℚ) (toTokenAmount : Int) : Int :=
  Int.tdiv (toTokenAmount * slippageFactor cfg) 10000

/-- JS `quote.fee || 3000` (`0` is falsy). -/
def feeOrDefault (fee : Option Nat) (dflt : Nat) : Nat :=
  match fee with
  | none => dflt
  | some f => if f = 0 then dflt else f

/-- `buildSwapStep` from `src/opportunityScanner.js`: slippage-protected
minimum output, then dispatch on the quote's source.  The Odos branch
performs the `assemble` network call, supplied here as the oracle
`assemble`; a missing response or empty (falsy) `to`/`data` fails the
build (`none`). -/
def buildSwapStep (assemble : Quote → Option Assembled) (cfg : Option ℚ)
    (quote : Quote) (fromToken toToken : Address) : Option SwapStep :=
  let amountOutMin := amountOutMinOf cfg quote.toTokenAmount
  if quote.dex = some "uniswap" then
    some { dexType := DEX_UNISWAP_V3, router := UNISWAP_V3_ROUTER,
           tokenIn := fromToken, tokenOut := toToken,
           fee := feeOrDefault quote.fee 3000, stable := false,
           factory := ZeroAddress, amountOutMin := amountOutMin, data := "0x" }
  else if quote.dex = some "aerodrome" then
    some { dexType := DEX_AERODROME, router := AERODROME_ROUTER,
           tokenIn := fromToken, tokenOut := toToken, fee := 0,
           stable := quote.stable.getD false, factory := AERODROME_FACTORY,
           amountOutMin := amountOutMin, data := "0x" }
  else if quote.aggregator = some "odos" then
    match assemble quote with
    | none => none
    | some assembled =>
      if assembled.toAddr = "" ∨ assembled.data = "" then none
      else
        some { dexType := DEX_GENERIC, router := assembled.toAddr,
               tokenIn := fromToken, tokenOut := toToken, fee := 0,
               stable := false, factory := ZeroAddress,
               amountOutMin := amountOutMin, data := assembled.data }
  else none

/-- The `validQuotes.reduce((best, current) => current > best ? current : best)`
accumulator: replace only on a strictly greater output, so on a tie the
earlier quote is kept. -/
def pickBetter (best current : Quote) : Quote :=
  if current.toTokenAmount > best.toTokenAmount then current else best

/-- The quote list assembled by `getBestHopQuote` before filtering:
Uniswap unless another DEX is hinted, Aerodrome unless another DEX is
hinted, Odos always.  A source that failed or returned `null` contributes
nothing. -/
def hopQuoteList (uni aero odos : Option Quote) (preferredDex : Option String) :
    List Quote :=
  (if preferredDex = none ∨ preferredDex = some "uniswap" then uni.toList else []) ++
  (if preferredDex = none ∨ preferredDex = some "aerodrome" then aero.toList else []) ++
  odos.toList

/-- `getBestHopQuote` from `src/opportunityScanner.js`: filter out quotes
whose output is not positive, return `null` when nothing is left, else
reduce with `pickBetter`. -/
def getBestHopQuote (uni aero odos : Option Quote) (preferredDex : Option String) :
    Option Quote :=
  let validQuotes := (hopQuoteList uni aero odos preferredDex).filter
    (fun q => q.toTokenAmount > 0)
  match validQuotes with
  | [] => none
  | q :: rest => some (rest.foldl pickBetter q)

/-- The network-facing environment of one scan: each quote source, the Odos
assemble endpoint, the slippage configuration, the optional configured
contract address and the external profitability and simulation predicates.
Quantifying theorems over `Env` quantifies over every network behaviour. -/
structure Env where
  uniQuote : Address → Address → Int → Option Quote
  aeroQuote : Address → Address → Int → Option Quote
  odosQuote : Address → Address → Int → Option Quote
  odosAssemble : Quote → Option Assembled
  slippageBuffer : Option ℚ
  contractAddr : Option Address
  isProfitable : Int → Bool
  simulateTransaction : Address → Int → List SwapStep → Bool

/-- The best quote for one hop: `getBestHopQuote(hop.from, hop.to, amount, hop.dex)`
with the three sources drawn from the environment. -/
def bestHopQuote (env : Env) (hop : Hop) (amountIn : Int) : Option Quote :=
  getBestHopQuote (env.uniQuote hop.fromToken hop.toToken amountIn)
    (env.aeroQuote hop.fromToken hop.toToken amountIn)
    (env.odosQuote hop.fromToken hop.toToken amountIn) hop.dex

/-- Modelled from the spec: `calculateNetProfit` lives in
`src/profitCalculator.js`, which is not part of the provided sources (only
its callers are).  Per §4.3: `netProfit = finalAmount − borrowedAmount −
gasCostEstimate` and `profitPercent = netProfit / borrowedAmount × 100`. -/
def calculateNetProfit (finalAmount borrowedAmount gasCostEstimate : Int) :
    Int × ℚ :=
  let netProfit := finalAmount - borrowedAmount - gasCostEstimate
  (netProfit, (netProfit : ℚ) / (borrowedAmount : ℚ) * 100)

/-- `ethers.parseUnits('0.0005', 'ether')` = 5·10^14 wei. -/
def gasCostEstimate : Int := 500000000000000

/-- The hop loop of `evaluatePath`: for each hop take the best quote (abort
on `null`), build its step (abort on `null`), push the step and continue
with the quoted output amount as the next hop's input.  Returns the step
list and the final amount. -/
def evalHops (env : Env) : List Hop → Int → Option (List SwapStep × Int)
  | [], currentAmount => some ([], currentAmount)
  | hop :: rest, currentAmount =>
    match bestHopQuote env hop currentAmount with
    | none => none
    | some quote =>
      match buildSwapStep env.odosAssemble env.slippageBuffer quote
          hop.fromToken hop.toToken with
      | none => none
      | some step =>
        match evalHops env rest quote.toTokenAmount with
        | none => none
        | some (steps, finalAmount) => some (step :: steps, finalAmount)

/-- The input amounts seen by the successive hops of `evaluatePath`
(the trace of `currentAmount` at each loop entry, cut short where a hop
yields no quote). -/
def hopInputs (env : Env) : List Hop → Int → List Int
  | [], _ => []
  | hop :: rest, currentAmount =>
    currentAmount ::
      (match bestHopQuote env hop currentAmount with
       | none => []
       | some quote => hopInputs env rest quote.toTokenAmount)

/-- `evaluatePath` from `src/opportunityScanner.js`.  The empty-path case
(which the caller `scanAllPaths` filters out before ever calling
`evaluatePath`) is mapped to `none`.  The simulation runs only when a
contract address is configured, exactly as in the source
(`if (contractAddr) { ... }`). -/
def evaluatePath (env : Env) (pathHops : List Hop) (initialAmount : Int) :
    Option Opportunity :=
  match pathHops with
  | [] => none
  | firstHop :: _ =>
    match evalHops env pathHops initialAmount with
    | none => none
    | some (swapSteps, finalAmount) =>
      let borrowedAmount := initialAmount
      let np := calculateNetProfit finalAmount borrowedAmount gasCostEstimate
      if env.isProfitable np.1 then
        let opp : Opportunity :=
          { netProfit := np.1, profitPercent := np.2,
            initialAmount := initialAmount, finalAmount := finalAmount,
            asset := firstHop.fromToken, swapSteps := swapSteps }
        match env.contractAddr with
        | some _ =>
          if env.simulateTransaction firstHop.fromToken initialAmount swapSteps
          then some opp else none
        | none => some opp
      else none

/-- One batch entry of `scanAllPaths`: a `null` or empty path resolves to
`null` without evaluation; otherwise the settled outcome of the
`evaluatePath` promise — `.error` models a rejected promise (an exception
thrown during evaluation). -/
def pathOutcome (runPath : List Hop → Except String (Option Opportunity))
    (p : Option (List Hop)) : Except String (Option Opportunity) :=
  match p with
  | none => Except.ok none
  | some hops => if hops = [] then Except.ok none else runPath hops

/-- What one settled path contributes to the result set: its opportunity
when it fulfilled with a non-null value, nothing otherwise (`rejected`
results and `null` values are both dropped). -/
def pathContribution (runPath : List Hop → Except String (Option Opportunity))
    (p : Option (List Hop)) : Option Opportunity :=
  match pathOutcome runPath p with
  | Except.ok (some opp) => some opp
  | _ => none

/-- The batching loop `for (let i = 0; i < paths.length; i += batchSize)`
with `paths.slice(i, i + batchSize)`: successive chunks of `n` paths. -/
def chunkList (n : Nat) (h : 0 < n) : List α → List (List α)
  | [] => []
  | x :: xs =>
    (x :: xs).take n :: chunkList n h ((x :: xs).drop n)
termination_by l => l.length
decreasing_by
  simp only [List.length_drop, List.length_cons]
  omega

/-- The batches of `scanAllPaths` (`batchSize = 5`). -/
def batchesOf5 (paths : List (Option (List Hop))) : List (List (Option (List Hop))) :=
  chunkList 5 (by norm_num) paths

/-- `scanAllPaths` from `src/opportunityScanner.js`: `initialAmountResult`
is the outcome of `ethers.parseUnits(config.scanAmount, 'ether')` (the only
statement inside the top-level `try` that can throw before the loop); on an
exception the `catch` logs and the accumulated (still empty) opportunity
list is returned.  Batches of 5 run sequentially; inside a batch the
settled results are filtered for fulfilled non-null values. -/
def scanAllPaths (initialAmountResult : Except String Int)
    (runPath : Int → List Hop → Except String (Option Opportunity))
    (paths : List (Option (List Hop))) : List Opportunity :=
  match initialAmountResult with
  | Except.error _ => []
  | Except.ok initialAmount =>
    (batchesOf5 paths).foldl
      (fun opportunities batch =>
        opportunities ++ batch.filterMap (pathContribution (runPath initialAmount)))
      []

/-! ## MEV protection module (`mevProtection.js`)

The module-level mutable `let nonce = null` is threaded explicitly; each
call of `sendPrivateTransaction` interacts with the chain through one
`SendEvent` describing what the network would answer at each touch point.
The async code runs on a single logical thread (spec §5), so one call
completes before the next starts and sequential state threading is
faithful. -/

/-- The module state: `let nonce = null`. -/
structure MevState where
  nonce : Option Nat
deriving Repr, DecidableEq

/-- The network's behaviour during one `sendPrivateTransaction` call:
`feeData` is `provider.getFeeData()`'s answer (`none` = the call throws),
`chainNonceOnInit` is what `wallet.getNonce()` returns if the lazy
initialization inside `getNextNonce` fires, `chainNonceOnReset` what it
returns if `resetNonce` fires in the `catch`, `gasOk` whether the
gas-limit step succeeds (`tx.gasLimit` preset, or `estimateGas` does not
throw) and `broadcastOk` whether `wallet.sendTransaction` succeeds. -/
structure SendEvent where
  feeData : Option Nat
  chainNonceOnInit : Nat
  chainNonceOnReset : Nat
  gasOk : Bool
  broadcastOk : Bool
deriving Repr, DecidableEq

/-- Externally visible actions of one call, in order. -/
inductive SendAction where
  | fetchChainNonce (value : Nat)
  | broadcast (nonce : Nat)
deriving Repr, DecidableEq

/-- The outcome of one `sendPrivateTransaction` call: the returned value
(`some n` = a tx response whose nonce is `n`, `none` = `null`), the state
of the module-level nonce afterwards, and the chain-facing actions. -/
structure SendResult where
  response : Option Nat
  state : MevState
  actions : List SendAction
deriving Repr, DecidableEq

/-- `getNextNonce()`: lazily initialize from `wallet.getNonce()` on first
use, then return-and-postincrement.  Result: the nonce handed out, the new
state, and the chain fetch if one happened. -/
def getNextNonce (st : MevState) (chainNonce : Nat) :
    Nat × MevState × List SendAction :=
  match st.nonce with
  | none => (chainNonce, ⟨some (chainNonce + 1)⟩, [SendAction.fetchChainNonce chainNonce])
  | some n => (n, ⟨some (n + 1)⟩, [])

/-- `resetNonce()`: re-fetch the counter from chain state. -/
def resetNonce (chainNonce : Nat) : MevState × List SendAction :=
  (⟨some chainNonce⟩, [SendAction.fetchChainNonce chainNonce])

/-- `sendPrivateTransaction` from `mevProtection.js`, with
`maxGasWei = ethers.parseUnits(config.maxGasPriceGwei.toString(), 'gwei')`.
Order of the source: fetch fee data, compare against the ceiling and return
`null` on excess (before any nonce is touched), assign the nonce, settle
the gas limit, broadcast; any thrown error lands in the `catch`, which
calls `resetNonce()` and returns `null`. -/
def sendPrivateTransaction (maxGasWei : Nat) (st : MevState) (ev : SendEvent) :
    SendResult :=
  match ev.feeData with
  | none =>
    -- `provider.getFeeData()` threw: caught, nonce resynchronized.
    let (st', acts) := resetNonce ev.chainNonceOnReset
    { response := none, state := st', actions := acts }
  | some currentGas =>
    if currentGas > maxGasWei then
      -- Gas ceiling exceeded: skip, nothing signed, nonce untouched.
      { response := none, state := st, actions := [] }
    else
      let (n, st1, initActs) := getNextNonce st ev.chainNonceOnInit
      if !ev.gasOk then
        -- `estimateGas` threw after the nonce was assigned: caught, resync.
        let (st', acts) := resetNonce ev.chainNonceOnReset
        { response := none, state := st', actions := initActs ++ acts }
      else if ev.broadcastOk then
        { response := some n, state := st1,
          actions := initActs ++ [SendAction.broadcast n] }
      else
        -- `wallet.sendTransaction` threw: caught, resync.
        let (st', acts) := resetNonce ev.chainNonceOnReset
        { response := none, state := st',
          actions := initActs ++ [SendAction.broadcast n] ++ acts }

/-- A sequence of `sendPrivateTransaction` calls, threading the module
state; returns the final state and the per-call results in order. -/
def runSends (maxGasWei : Nat) : MevState → List SendEvent →
    MevState × List SendResult
  | st, [] => (st, [])
  | st, ev :: evs =>
    let r := sendPrivateTransaction maxGasWei st ev
    let (stFinal, rs) := runSends maxGasWei r.state evs
    (stFinal, r :: rs)

/-! ## Scan scheduler (`bot.js`, Flashblocks build of `startScanning`)

The event-driven mode is modelled as a labelled transition system over the
cooperative event loop: the handler body is split at its `await` points.
`inFlight` is the source's `scanning` boolean; `phase` records where the
(single-threaded) handler currently is. -/

/-- Where the in-flight handler is: between `scanning = true` and the end
of `scanAllPaths` (`.scanning`), or awaiting `handleOpportunity`
(`.executing`). -/
inductive SchedPhase where
  | idle
  | scanning
  | executing
deriving Repr, DecidableEq

structure SchedState where
  running : Bool
  inFlight : Bool
  phase : SchedPhase
deriving Repr, DecidableEq

/-- The scheduler's state before the first notification. -/
def schedInit : SchedState := { running := true, inFlight := false, phase := .idle }

/-- Events of the event loop: a flashblock notification, the completion of
`scanAllPaths` (`found` = a profitable opportunity list came back
non-empty), and the completion of `handleOpportunity`. -/
inductive SchedEvent where
  | notify
  | scanDone (found : Bool)
  | execDone
deriving Repr, DecidableEq

/-- One step of the event-driven scheduler.  `notify` re-enters the
`onFlashblock` handler: `if (!isRunning || scanning) return;` else
`scanning = true` and a scan starts.  `scanDone` resumes after
`scanAllPaths`: with opportunities it awaits `handleOpportunity`
(submission starts), otherwise the handler finishes and `scanning = false`.
`execDone` resumes after `handleOpportunity`: `scanning = false`. -/
def schedStep (s : SchedState) : SchedEvent → SchedState
  | .notify =>
    if !s.running || s.inFlight then s
    else { s with inFlight := true, phase := .scanning }
  | .scanDone found =>
    match s.phase with
    | .scanning =>
      if found then { s with phase := .executing }
      else { s with inFlight := false, phase := .idle }
    | _ => s
  | .execDone =>
    match s.phase with
    | .executing => { s with inFlight := false, phase := .idle }
    | _ => s

/-- Run the scheduler over an event trace. -/
def schedRun (s : SchedState) (events : List SchedEvent) : SchedState :=
  events.foldl schedStep s

/-- Number of submissions started along a trace: transitions into
`.executing`. -/
def execStarts : SchedState → List SchedEvent → Nat
  | _, [] => 0
  | s, e :: es =>
    let s' := schedStep s e
    (if s.phase ≠ .executing ∧ s'.phase = .executing then 1 else 0) +
      execStarts s' es

/-- Number of submissions whose confirmation completed along a trace:
transitions out of `.executing`. -/
def execEnds : SchedState → List SchedEvent → Nat
  | _, [] => 0
  | s, e :: es =>
    let s' := schedStep s e
    (if s.phase = .executing ∧ s'.phase ≠ .executing then 1 else 0) +
      execEnds s' es

/-- 1 when a submission's confirmation is pending in this state. -/
def execBit (s : SchedState) : Nat :=
  if s.phase = SchedPhase.executing then 1 else 0

/-- The event trace generated by the polling-mode loop (`while (isRunning)`
body: scan, and if opportunities were found await `handleOpportunity`
before sleeping and looping): each iteration contributes its notification
surrogate, its scan completion, and — when something was found — the
submission completion, strictly in sequence. -/
def pollTrace : List Bool → List SchedEvent
  | [] => []
  | found :: rest =>
    SchedEvent.notify :: SchedEvent.scanDone found ::
      (if found then [SchedEvent.execDone] else []) ++ pollTrace rest

/-! ## Execution contract entry point (`contracts/BaseAlphaArb.sol`)

Only the `executeArb` validation prologue is embedded: the `require`
chain that runs before `POOL.flashLoanSimple` is reached.  A failed
`require` reverts the transaction, modelled as `Except.error` with the
revert string; reaching the flash loan is `Except.ok`. -/

/-- The contract state consulted by `executeArb`'s modifiers and checks. -/
structure ContractState where
  owner : Address
  paused : Bool
  reentered : Bool
  whitelistedRouters : Address → Bool

/-- The flash-loan call issued at the end of a successful prologue. -/
structure FlashLoanCall where
  asset : Address
  amount : Int
  steps : List SwapStep
deriving Repr, DecidableEq

/-- The router/token/connectivity loop of `executeArb`; `prev` carries
`steps[i-1]` so the `if (i > 0)` connectivity check mirrors the source
exactly (a step's own checks run before its connectivity check). -/
def validateSteps (cs : ContractState) : Option SwapStep → List SwapStep →
    Except String Unit
  | _, [] => Except.ok ()
  | prev, step :: rest =>
    if !cs.whitelistedRouters step.router then Except.error "Router not whitelisted"
    else if step.tokenIn = ZeroAddress then Except.error "Invalid tokenIn"
    else if step.tokenOut = ZeroAddress then Except.error "Invalid tokenOut"
    else
      match prev with
      | some p =>
        if step.tokenIn ≠ p.tokenOut then Except.error "Path not connected"
        else validateSteps cs (some step) rest
      | none => validateSteps cs (some step) rest

/-- `executeArb(asset, amount, steps)` up to the point where
`POOL.flashLoanSimple` is initiated: modifiers (`onlyOwner`,
`whenNotPaused`, `nonReentrant`), then the `require` chain of the source
in order. -/
def executeArb (cs : ContractState) (sender asset : Address) (amount : Int)
    (steps : List SwapStep) : Except String FlashLoanCall :=
  if sender ≠ cs.owner then Except.error "Ownable: caller is not the owner"
  else if cs.paused then Except.error "Pausable: paused"
  else if cs.reentered then Except.error "ReentrancyGuard: reentrant call"
  else if steps.length = 0 then Except.error "No steps"
  else if steps.length > 10 then Except.error "Too many steps"
  else if (steps.headI).tokenIn ≠ asset then
    Except.error "First step tokenIn must match asset"
  else if (steps.getLastD default).tokenOut ≠ asset then
    Except.error "Last step tokenOut must match asset"
  else
    match validateSteps cs none steps with
    | Except.error e => Except.error e
    | Except.ok _ => Except.ok { asset := asset, amount := amount, steps := steps }

/-! ## Concrete fixtures used by witnesses -/

/-- A Uniswap-sourced quote with the given output amount. -/
def uniQuoteFix (amt : Int) : Quote :=
  { dex := some "uniswap", aggregator := none, toTokenAmount := amt,
    fee := some 500, stable := none }

/-- An Aerodrome-sourced quote with the given output amount. -/
def aeroQuoteFix (amt : Int) : Quote :=
  { dex := some "aerodrome", aggregator := none, toTokenAmount := amt,
    fee := none, stable := some false }

/-- An environment where only the Uniswap source answers, with a
pluggable quote table, zero-threshold profitability and a clean
simulation. -/
def simpleEnv (quoteFor : Address → Address → Int → Option Quote)
    (contract : Option Address) : Env :=
  { uniQuote := quoteFor, aeroQuote := fun _ _ _ => none,
    odosQuote := fun _ _ _ => none, odosAssemble := fun _ => none,
    slippageBuffer := none, contractAddr := contract,
    isProfitable := fun np => np > 0,
    simulateTransaction := fun _ _ _ => true }

/-- Quote table for a cyclic two-hop test path A → B → A: the first hop
returns 5, the second 1000000000000002 (covering the hard-coded gas
allowance of 5·10^14 on a borrow of 1). -/
def cycleQuotes : Address → Address → Int → Option Quote :=
  fun fromToken _ _ =>
    if fromToken = "A" then some (uniQuoteFix 5)
    else some (uniQuoteFix 1000000000000002)

/-- The cyclic two-hop test path A → B → A. -/
def cyclePath : List Hop :=
  [{ fromToken := "A", toToken := "B", dex := none },
   { fromToken := "B", toToken := "A", dex := none }]

/-- A minimal opportunity fixture tagging which path produced it. -/
def oppTagged (tag : Address) : Opportunity :=
  { netProfit := 1, profitPercent := 0, initialAmount := 1, finalAmount := 2,
    asset := tag, swapSteps := [] }

/-- A single-hop candidate path starting from the given token. -/
def pathFrom (tag : Address) : Option (List Hop) :=
  some [{ fromToken := tag, toToken := "X", dex := none }]

/-- Seven candidate paths (spec Scenario E uses 7 paths at batch size 5). -/
def sevenPaths : List (Option (List Hop)) :=
  [pathFrom "T1", pathFrom "T2", pathFrom "T3", pathFrom "T4",
   pathFrom "T5", pathFrom "T6", pathFrom "T7"]

/-- A per-path evaluation oracle whose T3 evaluation throws (rejected
promise) while every other path fulfills with an opportunity. -/
def runWithT3Throwing : Int → List Hop → Except String (Option Opportunity) :=
  fun _ hops =>
    if hops.headI.fromToken = "T3" then Except.error "boom"
    else Except.ok (some (oppTagged hops.headI.fromToken))

/-- An unpaused, non-reentered contract owned by "O" with an open router
whitelist. -/
def openContract : ContractState :=
  { owner := "O", paused := false, reentered := false,
    whitelistedRouters := fun _ => true }

/-- The nonces broadcast during one `sendPrivateTransaction` call. -/
def broadcastNonces (acts : List SendAction) : List Nat :=
  acts.filterMap (fun a => match a with
    | SendAction.broadcast n => some n
    | _ => none)

end ArbBot

namespace ArbBot

/-! ## C1 — slippage arithmetic of the Step Builder -/

/-- Every branch of `buildSwapStep` protects with the same minimum output. -/
theorem buildSwapStep_amountOutMin (assemble : Quote → Option Assembled)
    (cfg : Option ℚ) (quote : Quote) (fromToken toToken : Address)
    (st : SwapStep) (h : buildSwapStep assemble cfg quote fromToken toToken = some st) :
    st.amountOutMin = amountOutMinOf cfg quote.toTokenAmount := by
  unfold buildSwapStep at h
  split at h
  · cases h; rfl
  · split at h
    · cases h; rfl
    · split at h
      · split at h
        · cases h
        · split at h
          · cases h
          · cases h; rfl
      · cases h

/-- The Uniswap branch of `buildSwapStep`, made explicit. -/
theorem buildSwapStep_uniswap (assemble : Quote → Option Assembled)
    (cfg : Option ℚ) (q : Quote) (a b : Address)
    (hdex : q.dex = some "uniswap") :
    buildSwapStep assemble cfg q a b = some
      { dexType := DEX_UNISWAP_V3, router := UNISWAP_V3_ROUTER,
        tokenIn := a, tokenOut := b, fee := feeOrDefault q.fee 3000,
        stable := false, factory := ZeroAddress,
        amountOutMin := amountOutMinOf cfg q.toTokenAmount, data := "0x" } := by
  unfold buildSwapStep
  rw [if_pos hdex]

/-- The explicitly configured slippage buffer is used as long as it is
not the falsy 0. -/
theorem slippageBufferVal_some (s : ℚ) (h : s ≠ 0) :
    slippageBufferVal (some s) = s := by
  unfold slippageBufferVal
  exact if_neg h

/-- The slippage factor at the default 0.3% buffer. -/
theorem slippageFactor_default : slippageFactor (some (3 / 1000)) = 9970 := by
  unfold slippageFactor
  rw [slippageBufferVal_some _ (by norm_num)]
  rw [show ((1 : ℚ) - 3 / 1000) * 10000 = ((9970 : ℤ) : ℚ) by norm_num,
    round_intCast]

/-- The slippage factor at a buffer of 1.5 basis points: `Math.round`
rounds 9998.5 up to 9999. -/
theorem slippageFactor_quarter_bp :
    slippageFactor (some (3 / 20000)) = 9999 := by
  unfold slippageFactor
  rw [slippageBufferVal_some _ (by norm_num)]
  rw [round_eq, show ((1 : ℚ) - 3 / 20000) * 10000 + 1 / 2 =
    ((9999 : ℤ) : ℚ) by norm_num, Int.floor_intCast]

/-- C1, as stated, is false: the Step Builder first rounds the slippage
buffer to a whole number of basis points (`Math.round((1 - s) * 10000)`),
so for a buffer that is not a whole number of basis points the result is
not `⌊outputAmount × (1 − s)⌋`.  With `s = 0.00015` and output `100000`
the code yields `100000·9999/10000 = 99990` while the claimed value is
`⌊100000 × 0.99985⌋ = 99985`. -/
theorem c1_counterexample :
    (buildSwapStep (fun _ => none) (some (3 / 20000)) (uniQuoteFix 100000)
        "A" "B").map SwapStep.amountOutMin = some 99990 ∧
      ⌊(100000 : ℚ) * (1 - 3 / 20000)⌋ = 99985 ∧ (99990 : ℤ) ≠ 99985 := by
  refine ⟨?_, ?_, by decide⟩
  · have hf : amountOutMinOf (some (3 / 20000)) 100000 = 99990 := by
      unfold amountOutMinOf
      rw [slippageFactor_quarter_bp]
      decide
    unfold buildSwapStep uniQuoteFix
    rw [if_pos rfl]
    simp only [Option.map_some']
    rw [hf]
  · rw [show (100000 : ℚ) * (1 - 3 / 20000) = ((99985 : ℤ) : ℚ) by norm_num,
      Int.floor_intCast]

/-- C1 (amended): for every configured slippage buffer that is a whole
number of basis points (`s·10000 ∈ ℤ`, which includes the default 0.3% =
30 bps), the Step Builder's `amountOutMin` equals
`⌊quote.outputAmount × (1 − s)⌋` exactly, by integer arithmetic with
truncation; in general the code computes
`⌊outputAmount × round((1 − s)·10000) / 10000⌋`. -/
theorem c1_amountOutMin_exact_floor_bps (assemble : Quote → Option Assembled)
    (cfg : Option ℚ) (quote : Quote) (fromToken toToken : Address)
    (st : SwapStep) (s : ℚ) (k : ℤ)
    (hs : slippageBufferVal cfg = s) (hk : s * 10000 = (k : ℚ))
    (hk0 : 0 ≤ k) (hk1 : k ≤ 10000) (hq : 0 ≤ quote.toTokenAmount)
    (h : buildSwapStep assemble cfg quote fromToken toToken = some st) :
    st.amountOutMin = ⌊(quote.toTokenAmount : ℚ) * (1 - s)⌋ := by
  rw [buildSwapStep_amountOutMin assemble cfg quote fromToken toToken st h]
  unfold amountOutMinOf slippageFactor
  rw [hs]
  have hfac : (1 - s) * 10000 = ((10000 - k : ℤ) : ℚ) := by
    push_cast
    linarith [hk]
  rw [hfac, round_intCast]
  rw [Int.tdiv_eq_ediv (mul_nonneg hq (by omega)) (by norm_num)]
  have hval : (quote.toTokenAmount : ℚ) * (1 - s) =
      ((quote.toTokenAmount * (10000 - k) : ℤ) : ℚ) / ((10000 : ℕ) : ℚ) := by
    push_cast
    have h10 : (s : ℚ) = (k : ℚ) / 10000 := by
      field_simp at hk ⊢
      linarith [hk]
    rw [h10]
    ring
  rw [hval, Rat.floor_intCast_div_natCast]
  norm_num

/-- Witness for C1 (amended) at the default 30-bps buffer and output
12345: `amountOutMin = ⌊12345 × 0.997⌋ = 12307`. -/
theorem c1_witness :
    (buildSwapStep (fun _ => none) (some (3 / 1000)) (uniQuoteFix 12345)
        "A" "B").map SwapStep.amountOutMin =
        some ⌊(12345 : ℚ) * (1 - 3 / 1000)⌋ ∧
      ⌊(12345 : ℚ) * (1 - 3 / 1000)⌋ = 12307 := by
  have hst := buildSwapStep_uniswap (fun _ => none) (some (3 / 1000))
    (uniQuoteFix 12345) "A" "B" rfl
  have hmain := c1_amountOutMin_exact_floor_bps (fun _ => none)
    (some (3 / 1000)) (uniQuoteFix 12345) "A" "B" _ (3 / 1000) 30
    (slippageBufferVal_some _ (by norm_num))
    (by norm_num) (by norm_num) (by norm_num)
    (by norm_num [uniQuoteFix]) hst
  refine ⟨?_, ?_⟩
  · rw [hst]
    simp only [Option.map_some']
    exact congrArg some hmain
  · rw [show (12345 : ℚ) * (1 - 3 / 1000) =
      ((12307965 : ℤ) : ℚ) / ((1000 : ℕ) : ℚ) by norm_num,
      Rat.floor_intCast_div_natCast]
    decide

/-! ## C4 — the Quote Aggregator picks the first strictly-greatest valid quote -/

/-- The strict-greater `reduce` keeps the first occurrence of the maximum:
the reduced list decomposes around the result, with everything before it
strictly smaller and everything after it no larger. -/
theorem foldl_pickBetter_first_max (q : Quote) (xs : List Quote) :
    ∃ before after, q :: xs = before ++ xs.foldl pickBetter q :: after ∧
      (∀ r ∈ before, r.toTokenAmount < (xs.foldl pickBetter q).toTokenAmount) ∧
      (∀ r ∈ after, r.toTokenAmount ≤ (xs.foldl pickBetter q).toTokenAmount) := by
  induction xs generalizing q with
  | nil => exact ⟨[], [], rfl, by simp, by simp⟩
  | cons x xs ih =>
    simp only [List.foldl_cons]
    obtain ⟨before, after, hdec, hlt, hle⟩ := ih (pickBetter q x)
    by_cases hcmp : x.toTokenAmount > q.toTokenAmount
    · have hpb : pickBetter q x = x := if_pos hcmp
      rw [hpb] at hdec hlt hle ⊢
      have hxr : x.toTokenAmount ≤ (xs.foldl pickBetter x).toTokenAmount := by
        cases before with
        | nil =>
          have hx : x = xs.foldl pickBetter x := by
            simpa using congrArg (fun l => l.headI) hdec
          exact le_of_eq (congrArg Quote.toTokenAmount hx)
        | cons b bs =>
          have hx : x = b := by
            simpa using congrArg (fun l => l.headI) hdec
          have hb := hlt b (by simp)
          rw [← hx] at hb
          exact le_of_lt hb
      refine ⟨q :: before, after, ?_, ?_, hle⟩
      · simpa using congrArg (fun l => q :: l) hdec
      · intro r hr
        rcases List.mem_cons.mp hr with hr | hr
        · subst hr
          exact lt_of_lt_of_le hcmp hxr
        · exact hlt r hr
    · have hpb : pickBetter q x = q := if_neg hcmp
      push_neg at hcmp
      rw [hpb] at hdec hlt hle ⊢
      cases before with
      | nil =>
        have hq1 : q = xs.foldl pickBetter q := by
          simpa using congrArg (fun l => l.headI) hdec
        have hq2 : xs = after := by
          simpa using congrArg List.tail hdec
        refine ⟨[], x :: xs, by simp [← hq1], by simp, ?_⟩
        intro r hr
        rcases List.mem_cons.mp hr with hr | hr
        · subst hr
          exact le_trans hcmp (le_of_eq (congrArg Quote.toTokenAmount hq1))
        · rw [hq2] at hr
          exact hle r hr
      | cons b bs =>
        have hb1 : q = b := by
          simpa using congrArg (fun l => l.headI) hdec
        have hb2 : xs = bs ++ xs.foldl pickBetter q :: after := by
          simpa using congrArg List.tail hdec
        have hqlt : q.toTokenAmount < (xs.foldl pickBetter q).toTokenAmount := by
          have hq := hlt b (by simp)
          rw [← hb1] at hq
          exact hq
        refine ⟨q :: x :: bs, after, ?_, ?_, hle⟩
        · rw [show (q :: x :: bs : List Quote) ++ xs.foldl pickBetter q :: after
            = q :: x :: (bs ++ xs.foldl pickBetter q :: after) by simp]
          rw [← hb2]
        · intro r hr
          rcases List.mem_cons.mp hr with hr | hr
          · subst hr
            exact hqlt
          rcases List.mem_cons.mp hr with hr | hr
          · subst hr
            exact lt_of_le_of_lt hcmp hqlt
          · exact hlt r (List.mem_cons_of_mem b hr)

/-- C4: for every hop request the Quote Aggregator drops failed sources and
quotes with output ≤ 0 (a failed source is `none` and contributes nothing
to `hopQuoteList` — no error propagates), returns `none` exactly when no
valid quote remains, and otherwise returns a quote with strictly positive
output that is maximal, every quote encountered before it in fan-out order
being strictly smaller (so ties go to the first encountered). -/
theorem c4_best_quote_selection (uni aero odos : Option Quote)
    (hint : Option String) :
    (getBestHopQuote uni aero odos hint = none ↔
      (hopQuoteList uni aero odos hint).filter
        (fun q => q.toTokenAmount > 0) = []) ∧
    (∀ q, getBestHopQuote uni aero odos hint = some q →
      0 < q.toTokenAmount ∧
      ∃ before after,
        (hopQuoteList uni aero odos hint).filter
          (fun r => r.toTokenAmount > 0) = before ++ q :: after ∧
        (∀ r ∈ before, r.toTokenAmount < q.toTokenAmount) ∧
        (∀ r ∈ after, r.toTokenAmount ≤ q.toTokenAmount)) := by
  constructor
  · unfold getBestHopQuote
    cases h : (hopQuoteList uni aero odos hint).filter
        (fun q => q.toTokenAmount > 0) with
    | nil => simp
    | cons q rest => simp
  · intro q hq
    unfold getBestHopQuote at hq
    rcases h : (hopQuoteList uni aero odos hint).filter
        (fun r => r.toTokenAmount > 0) with _ | ⟨q0, rest⟩
    · rw [h] at hq
      cases hq
    · rw [h] at hq
      have hq' : rest.foldl pickBetter q0 = q := by
        simpa using hq
      obtain ⟨before, after, hdec, hlt, hle⟩ :=
        foldl_pickBetter_first_max q0 rest
      rw [hq'] at hdec hlt hle
      have hmem : q ∈ q0 :: rest := by
        rw [hdec]
        exact List.mem_append_right before (List.mem_cons_self q after)
      have hpos : 0 < q.toTokenAmount := by
        have : q ∈ (hopQuoteList uni aero odos hint).filter
            (fun r => r.toTokenAmount > 0) := by
          rw [h]
          exact hmem
        have := List.of_mem_filter this
        exact of_decide_eq_true this
      exact ⟨hpos, before, after, by rw [h, hdec], hlt, hle⟩

/-- Witness for C4, spec Scenario A: two venues quote 10050 and 10080;
the aggregator selects the 10080 quote, which is valid, maximal and first
among the maxima. -/
theorem c4_witness :
    0 < (aeroQuoteFix 10080).toTokenAmount ∧
    ∃ before after,
      (hopQuoteList (some (uniQuoteFix 10050)) (some (aeroQuoteFix 10080))
          none none).filter (fun r => r.toTokenAmount > 0) =
        before ++ aeroQuoteFix 10080 :: after ∧
      (∀ r ∈ before, r.toTokenAmount < (aeroQuoteFix 10080).toTokenAmount) ∧
      (∀ r ∈ after, r.toTokenAmount ≤ (aeroQuoteFix 10080).toTokenAmount) :=
  (c4_best_quote_selection (some (uniQuoteFix 10050))
    (some (aeroQuoteFix 10080)) none none).2 (aeroQuoteFix 10080) (by decide)


/-! ## C2 — evaluatePath returns an Opportunity iff hops, profit and simulation all pass -/

/-- C2: with a contract address configured (so the pre-submission
simulation exists), `evaluatePath` returns an Opportunity **iff** every
hop yielded a best quote and a built step (that is exactly
`evalHops = some`), the net profit passes the external profitability
predicate, and the simulation succeeds; and whenever the simulation
fails the result is `null` — never a partial result (the return type
carries either a complete `Opportunity` or nothing). -/
theorem c2_opportunity_iff_profitable_and_simulated (env : Env)
    (pathHops : List Hop) (amt : Int) (ca : Address)
    (hca : env.contractAddr = some ca) (hne : pathHops ≠ []) :
    ((∃ opp, evaluatePath env pathHops amt = some opp) ↔
      (∃ steps finalAmount,
        evalHops env pathHops amt = some (steps, finalAmount) ∧
        env.isProfitable (finalAmount - amt - gasCostEstimate) = true ∧
        env.simulateTransaction pathHops.headI.fromToken amt steps = true)) ∧
    (∀ steps finalAmount,
      evalHops env pathHops amt = some (steps, finalAmount) →
      env.simulateTransaction pathHops.headI.fromToken amt steps = false →
      evaluatePath env pathHops amt = none) := by
  obtain ⟨h0, t, rfl⟩ := List.exists_cons_of_ne_nil hne
  refine ⟨⟨?_, ?_⟩, ?_⟩
  · rintro ⟨opp, hopp⟩
    rcases hev : evalHops env (h0 :: t) amt with _ | ⟨steps, fin⟩
    · rw [show evaluatePath env (h0 :: t) amt = none by
        simp [evaluatePath, hev]] at hopp
      cases hopp
    · rcases hprof : env.isProfitable (fin - amt - gasCostEstimate) with _ | _
      · rw [show evaluatePath env (h0 :: t) amt = none by
          simp [evaluatePath, hev, calculateNetProfit, hprof]] at hopp
        cases hopp
      · rcases hsim : env.simulateTransaction h0.fromToken amt steps with _ | _
        · rw [show evaluatePath env (h0 :: t) amt = none by
            simp [evaluatePath, hev, calculateNetProfit, hca, hprof, hsim]] at hopp
          cases hopp
        · exact ⟨steps, fin, rfl, hprof, by simpa using hsim⟩
  · rintro ⟨steps, fin, hev, hprof, hsim⟩
    simp only [List.headI_cons] at hsim
    rw [← Option.isSome_iff_exists]
    simp [evaluatePath, hev, calculateNetProfit, hca, hprof, hsim]
  · intro steps fin hev hsim
    simp only [List.headI_cons] at hsim
    rcases hprof : env.isProfitable (fin - amt - gasCostEstimate) with _ | _
    · simp [evaluatePath, hev, calculateNetProfit, hprof]
    · simp [evaluatePath, hev, calculateNetProfit, hca, hprof, hsim]

/-- Witness for C2: a concrete two-hop scan with a configured contract,
a clean simulation and a positive net profit yields an Opportunity, via
the forward direction of the equivalence. -/
theorem c2_witness :
    ∃ opp, evaluatePath (simpleEnv cycleQuotes (some "0xC")) cyclePath 1 =
      some opp := by
  refine ((c2_opportunity_iff_profitable_and_simulated
    (simpleEnv cycleQuotes (some "0xC")) cyclePath 1 "0xC" rfl
    (by decide)).1).2 ?_
  have hev : evalHops (simpleEnv cycleQuotes (some "0xC")) cyclePath 1 =
      some ([{ dexType := DEX_UNISWAP_V3, router := UNISWAP_V3_ROUTER,
               tokenIn := "A", tokenOut := "B", fee := 500, stable := false,
               factory := ZeroAddress, amountOutMin := amountOutMinOf none 5,
               data := "0x" },
             { dexType := DEX_UNISWAP_V3, router := UNISWAP_V3_ROUTER,
               tokenIn := "B", tokenOut := "A", fee := 500, stable := false,
               factory := ZeroAddress,
               amountOutMin := amountOutMinOf none 1000000000000002,
               data := "0x" }], 1000000000000002) := rfl
  exact ⟨_, _, hev, by decide, rfl⟩


/-! ## C3 — produced SwapStep sequences are connected and circular -/

/-- Every branch of `buildSwapStep` copies the hop's token pair into the
step. -/
theorem buildSwapStep_tokens (assemble : Quote → Option Assembled)
    (cfg : Option ℚ) (quote : Quote) (fromToken toToken : Address)
    (st : SwapStep)
    (h : buildSwapStep assemble cfg quote fromToken toToken = some st) :
    st.tokenIn = fromToken ∧ st.tokenOut = toToken := by
  unfold buildSwapStep at h
  split at h
  · cases h; exact ⟨rfl, rfl⟩
  · split at h
    · cases h; exact ⟨rfl, rfl⟩
    · split at h
      · split at h
        · cases h
        · split at h
          · cases h
          · cases h; exact ⟨rfl, rfl⟩
      · cases h

/-- The steps produced by the hop loop mirror the hops' token pairs
one-for-one. -/
theorem evalHops_forall₂ (env : Env) (hops : List Hop) (amt : Int)
    (steps : List SwapStep) (fin : Int)
    (h : evalHops env hops amt = some (steps, fin)) :
    List.Forall₂ (fun (st : SwapStep) (hop : Hop) =>
      st.tokenIn = hop.fromToken ∧ st.tokenOut = hop.toToken) steps hops := by
  induction hops generalizing amt steps fin with
  | nil =>
    simp only [evalHops, Option.some.injEq, Prod.mk.injEq] at h
    rw [← h.1]
    exact List.Forall₂.nil
  | cons hop rest ih =>
    simp only [evalHops] at h
    split at h
    · cases h
    · rename_i q hq
      split at h
      · cases h
      · rename_i st hst
        split at h
        · cases h
        · rename_i steps2 fin2 hrest
          simp only [Option.some.injEq, Prod.mk.injEq] at h
          rw [← h.1]
          exact List.Forall₂.cons
            (buildSwapStep_tokens env.odosAssemble env.slippageBuffer q
              hop.fromToken hop.toToken st hst)
            (ih q.toTokenAmount steps2 fin2 hrest)

/-- Dissecting a successful `evaluatePath`: the path is nonempty, the
opportunity's steps are exactly the hop loop's steps, and the asset is
the first hop's input token. -/
theorem evaluatePath_some_elim (env : Env) (pathHops : List Hop) (amt : Int)
    (opp : Opportunity) (h : evaluatePath env pathHops amt = some opp) :
    ∃ h0 t fin, pathHops = h0 :: t ∧
      evalHops env pathHops amt = some (opp.swapSteps, fin) ∧
      opp.asset = h0.fromToken := by
  cases pathHops with
  | nil => cases h
  | cons h0 t =>
    refine ⟨h0, t, ?_⟩
    rcases hev : evalHops env (h0 :: t) amt with _ | ⟨steps, fin⟩
    · simp [evaluatePath, hev] at h
    · refine ⟨fin, rfl, ?_⟩
      rcases hprof : env.isProfitable (fin - amt - gasCostEstimate) with _ | _
      · simp [evaluatePath, hev, calculateNetProfit, hprof] at h
      · rcases hca : env.contractAddr with _ | ca
        · simp [evaluatePath, hev, calculateNetProfit, hca, hprof] at h
          rw [← h]
          exact ⟨rfl, rfl⟩
        · rcases hsim : env.simulateTransaction h0.fromToken amt steps with _ | _
          · simp [evaluatePath, hev, calculateNetProfit, hca, hprof, hsim] at h
          · simp [evaluatePath, hev, calculateNetProfit, hca, hprof, hsim] at h
            rw [← h]
            exact ⟨rfl, rfl⟩


/-- `Forall₂` transfers to the last elements of both lists. -/
theorem forall₂_getLast {α β : Type} {R : α → β → Prop} :
    ∀ {l₁ : List α} {l₂ : List β}, List.Forall₂ R l₁ l₂ →
      ∀ (h₁ : l₁ ≠ []) (h₂ : l₂ ≠ []), R (l₁.getLast h₁) (l₂.getLast h₂) := by
  intro l₁ l₂ h
  induction h with
  | nil =>
    intro h₁ _
    exact absurd rfl h₁
  | @cons a b l₁ l₂ hab htail ih =>
    intro h₁ h₂
    cases htail with
    | nil => simpa using hab
    | @cons a2 b2 l₁2 l₂2 hab2 htail2 =>
      rw [List.getLast_cons (List.cons_ne_nil a2 l₁2),
        List.getLast_cons (List.cons_ne_nil b2 l₂2)]
      exact ih (List.cons_ne_nil a2 l₁2) (List.cons_ne_nil b2 l₂2)

/-- C3: if the input Path satisfies its data-model invariant — hops chain
(`hop[i+1].from = hop[i].to`) and close the cycle
(`last.to = first.from`) — then every SwapStep sequence the Path Evaluator
produces is connected (`steps[i+1].tokenIn = steps[i].tokenOut`), starts
at the borrowed asset and ends at the borrowed asset. -/
theorem c3_steps_connected_and_circular (env : Env) (pathHops : List Hop)
    (amt : Int) (opp : Opportunity) (hne : pathHops ≠ [])
    (hconn : ∀ i (h : i + 1 < pathHops.length),
      (pathHops.get ⟨i + 1, h⟩).fromToken =
        (pathHops.get ⟨i, Nat.lt_of_succ_lt h⟩).toToken)
    (hcyc : (pathHops.getLast hne).toToken = pathHops.headI.fromToken)
    (hopp : evaluatePath env pathHops amt = some opp) :
    opp.swapSteps.length = pathHops.length ∧
    (∀ i (h : i + 1 < opp.swapSteps.length),
      (opp.swapSteps.get ⟨i + 1, h⟩).tokenIn =
        (opp.swapSteps.get ⟨i, Nat.lt_of_succ_lt h⟩).tokenOut) ∧
    (∀ hpos : 0 < opp.swapSteps.length,
      (opp.swapSteps.get ⟨0, hpos⟩).tokenIn = opp.asset) ∧
    (∀ hnil : opp.swapSteps ≠ [],
      (opp.swapSteps.getLast hnil).tokenOut = opp.asset) := by
  obtain ⟨h0, t, fin, hpath, hev, hasset⟩ :=
    evaluatePath_some_elim env pathHops amt opp hopp
  subst hpath
  have hf2 := evalHops_forall₂ env (h0 :: t) amt opp.swapSteps fin hev
  obtain ⟨hlen, hget⟩ := List.forall₂_iff_get.mp hf2
  refine ⟨hlen, ?_, ?_, ?_⟩
  · intro i h
    have hi2 : i + 1 < (h0 :: t).length := hlen ▸ h
    have ha := hget (i + 1) h hi2
    have hb := hget i (Nat.lt_of_succ_lt h) (Nat.lt_of_succ_lt hi2)
    rw [ha.1, hb.2]
    exact hconn i hi2
  · intro hpos
    have ha := hget 0 hpos (hlen ▸ hpos)
    rw [ha.1, hasset]
    rfl
  · intro hnil
    have hR := forall₂_getLast hf2 hnil hne
    rw [hR.2, hcyc, hasset]
    rfl

/-- Witness for C3: the concrete cyclic path A → B → A evaluates to an
Opportunity whose two steps are connected and circular over asset A. -/
theorem c3_witness :
    (evaluatePath (simpleEnv cycleQuotes (some "0xC")) cyclePath 1).isSome
      = true ∧
    ∀ opp, evaluatePath (simpleEnv cycleQuotes (some "0xC")) cyclePath 1 =
        some opp →
      opp.swapSteps.length = cyclePath.length ∧
      (∀ i (h : i + 1 < opp.swapSteps.length),
        (opp.swapSteps.get ⟨i + 1, h⟩).tokenIn =
          (opp.swapSteps.get ⟨i, Nat.lt_of_succ_lt h⟩).tokenOut) ∧
      (∀ hpos : 0 < opp.swapSteps.length,
        (opp.swapSteps.get ⟨0, hpos⟩).tokenIn = opp.asset) ∧
      (∀ hnil : opp.swapSteps ≠ [],
        (opp.swapSteps.getLast hnil).tokenOut = opp.asset) := by
  refine ⟨rfl, ?_⟩
  intro opp hopp
  refine c3_steps_connected_and_circular _ cyclePath 1 opp (by decide)
    ?_ rfl hopp
  intro i h
  have hi : i = 0 := by
    simp [cyclePath] at h
    omega
  subst hi
  rfl


/-! ## C5 — strict sequential walk, profit formula, Scenario B -/

/-- Chaining of the hop walk: whenever positions `i` and `i+1` of the
input-amount trace both exist, position `i+1` is exactly the output amount
quoted for hop `i` on input `i` — hop k+1's input is hop k's quoted
output. -/
theorem hopInputs_chain (env : Env) :
    ∀ (hops : List Hop) (amt : Int) (i : Nat) (hop : Hop) (vi vsucc : Int),
      hops.get? i = some hop →
      (hopInputs env hops amt).get? i = some vi →
      (hopInputs env hops amt).get? (i + 1) = some vsucc →
      ∃ q, bestHopQuote env hop vi = some q ∧ vsucc = q.toTokenAmount := by
  intro hops
  induction hops with
  | nil =>
    intro amt i hop vi vsucc hhop _ _
    simp at hhop
  | cons hop0 rest ih =>
    intro amt i hop vi vsucc hhop hvi hvsucc
    rcases hq : bestHopQuote env hop0 amt with _ | q
    · have hlist : hopInputs env (hop0 :: rest) amt = [amt] := by
        simp [hopInputs, hq]
      rw [hlist] at hvsucc
      simp at hvsucc
    · have hlist : hopInputs env (hop0 :: rest) amt =
          amt :: hopInputs env rest q.toTokenAmount := by
        simp [hopInputs, hq]
      rw [hlist] at hvi hvsucc
      cases i with
      | zero =>
        simp only [List.get?_cons_zero, Option.some.injEq] at hhop hvi
        subst hhop
        subst hvi
        refine ⟨q, hq, ?_⟩
        rw [List.get?_cons_succ] at hvsucc
        cases rest with
        | nil => simp [hopInputs] at hvsucc
        | cons r rs =>
          have : hopInputs env (r :: rs) q.toTokenAmount =
              q.toTokenAmount :: (match bestHopQuote env r q.toTokenAmount with
                | none => []
                | some q2 => hopInputs env rs q2.toTokenAmount) := rfl
          rw [this, List.get?_cons_zero] at hvsucc
          exact (Option.some.injEq _ _).mp hvsucc |>.symm
      | succ j =>
        rw [List.get?_cons_succ] at hhop hvi hvsucc
        exact ih q.toTokenAmount j hop vi vsucc hhop hvi hvsucc

/-- The trace starts at the initial borrow amount. -/
theorem hopInputs_head (env : Env) (hop : Hop) (t : List Hop) (amt : Int) :
    (hopInputs env (hop :: t) amt).get? 0 = some amt := rfl

/-- The profit fields of any returned Opportunity follow the §4.3 formula
over the hard-coded gas allowance. -/
theorem evaluatePath_profit_fields (env : Env) (pathHops : List Hop)
    (amt : Int) (opp : Opportunity)
    (h : evaluatePath env pathHops amt = some opp) :
    opp.initialAmount = amt ∧
    opp.netProfit = opp.finalAmount - opp.initialAmount - gasCostEstimate ∧
    opp.profitPercent = (opp.netProfit : ℚ) / (opp.initialAmount : ℚ) * 100 := by
  cases pathHops with
  | nil => cases h
  | cons h0 t =>
    rcases hev : evalHops env (h0 :: t) amt with _ | ⟨steps, fin⟩
    · simp [evaluatePath, hev] at h
    · rcases hprof : env.isProfitable (fin - amt - gasCostEstimate) with _ | _
      · simp [evaluatePath, hev, calculateNetProfit, hprof] at h
      · rcases hca : env.contractAddr with _ | ca
        · simp [evaluatePath, hev, calculateNetProfit, hca, hprof] at h
          rw [← h]
          refine ⟨rfl, rfl, ?_⟩
          push_cast
          ring
        · rcases hsim : env.simulateTransaction h0.fromToken amt steps with _ | _
          · simp [evaluatePath, hev, calculateNetProfit, hca, hprof, hsim] at h
          · simp [evaluatePath, hev, calculateNetProfit, hca, hprof, hsim] at h
            rw [← h]
            refine ⟨rfl, rfl, ?_⟩
            push_cast
            ring

/-- C5: the Path Evaluator walks hops strictly sequentially — the trace of
hop input amounts starts at the borrow amount and each later entry is the
previous hop's quoted output — and computes
`netProfit = finalAmount − borrowedAmount − gasCostEstimate`,
`profitPercent = netProfit / borrowedAmount × 100`; in particular
(Scenario B) final 10100 on borrowed 10000 with gas 20 gives netProfit 80,
profitPercent 0.8%, which passes a profit threshold of 0. -/
theorem c5_sequential_walk_and_profit :
    (∀ (env : Env) (hop : Hop) (t : List Hop) (amt : Int),
      (hopInputs env (hop :: t) amt).get? 0 = some amt) ∧
    (∀ (env : Env) (hops : List Hop) (amt : Int) (i : Nat) (hop : Hop)
      (vi vsucc : Int),
      hops.get? i = some hop →
      (hopInputs env hops amt).get? i = some vi →
      (hopInputs env hops amt).get? (i + 1) = some vsucc →
      ∃ q, bestHopQuote env hop vi = some q ∧ vsucc = q.toTokenAmount) ∧
    (∀ (env : Env) (pathHops : List Hop) (amt : Int) (opp : Opportunity),
      evaluatePath env pathHops amt = some opp →
      opp.initialAmount = amt ∧
      opp.netProfit = opp.finalAmount - opp.initialAmount - gasCostEstimate ∧
      opp.profitPercent = (opp.netProfit : ℚ) / (opp.initialAmount : ℚ) * 100) ∧
    calculateNetProfit 10100 10000 20 = (80, 4 / 5) ∧ (0 : Int) < 80 := by
  refine ⟨hopInputs_head, hopInputs_chain, evaluatePath_profit_fields, ?_, by norm_num⟩
  unfold calculateNetProfit
  norm_num

/-- Witness for C5 at concrete inputs: the trace for the test path starts
at the borrow amount 10000 and its second entry is the first hop's quoted
output 5; the profit formula holds for the concrete Opportunity of the
test scan. -/
theorem c5_witness :
    (∃ q, bestHopQuote (simpleEnv cycleQuotes none)
        { fromToken := "A", toToken := "B", dex := none } 10000 = some q ∧
      (5 : Int) = q.toTokenAmount) ∧
    (evaluatePath (simpleEnv cycleQuotes (some "0xC")) cyclePath 1).isSome
      = true ∧
    ∀ opp, evaluatePath (simpleEnv cycleQuotes (some "0xC")) cyclePath 1 =
        some opp →
      opp.netProfit = opp.finalAmount - opp.initialAmount - gasCostEstimate := by
  refine ⟨?_, rfl, ?_⟩
  · exact c5_sequential_walk_and_profit.2.1 (simpleEnv cycleQuotes none)
      cyclePath 10000 0 _ 10000 5 rfl rfl rfl
  · intro opp h
    exact (c5_sequential_walk_and_profit.2.2.1
      (simpleEnv cycleQuotes (some "0xC")) cyclePath 1 opp h).2.1


/-! ## C8 — batched, settle-all scanning with a swallowed top-level failure -/

/-- The batches tile the path list exactly (sequential batching loses and
reorders nothing). -/
theorem chunkList_flatten {α : Type} (n : Nat) (h : 0 < n) :
    ∀ (l : List α), (chunkList n h l).flatten = l
  | [] => by simp [chunkList]
  | x :: xs => by
    rw [chunkList, List.flatten_cons,
      chunkList_flatten n h ((x :: xs).drop n), List.take_append_drop]
termination_by l => l.length
decreasing_by
  simp only [List.length_drop, List.length_cons]
  omega

/-- Every batch is nonempty and no larger than the batch size. -/
theorem chunkList_mem {α : Type} (n : Nat) (h : 0 < n) :
    ∀ (l : List α), ∀ c ∈ chunkList n h l, c.length ≤ n ∧ c ≠ []
  | [] => by simp [chunkList]
  | x :: xs => by
    intro c hc
    rw [chunkList] at hc
    rcases List.mem_cons.mp hc with hc | hc
    · subst hc
      constructor
      · simp [List.length_take_le]
      · obtain ⟨m, rfl⟩ := Nat.exists_eq_succ_of_ne_zero (Nat.pos_iff_ne_zero.mp h)
        simp [List.take_succ_cons]
    · exact chunkList_mem n h ((x :: xs).drop n) c hc
termination_by l => l.length
decreasing_by
  simp only [List.length_drop, List.length_cons]
  omega

/-- Folding batchwise collection is the flat collection over the tiled
list. -/
theorem foldl_collect_eq_flatten_filterMap {α β : Type} (f : α → Option β) :
    ∀ (bs : List (List α)) (acc : List β),
      bs.foldl (fun o b => o ++ b.filterMap f) acc = acc ++ bs.flatten.filterMap f
  | [], acc => by simp
  | b :: bs, acc => by
    rw [List.foldl_cons, foldl_collect_eq_flatten_filterMap f bs (acc ++ b.filterMap f),
      List.flatten_cons, List.filterMap_append, List.append_assoc]

/-- C8: `scanAllPaths` tiles the candidate list into batches of 5 (all of
size ≤ 5, executed sequentially by a fold), collects exactly the fulfilled
non-null opportunity of each path independently of its siblings' failures
(settle-all: the result is a pointwise `filterMap` over all paths), and an
exception before the loop (the only pre-loop statement that can throw is
the scan-amount parse) is caught and yields the empty result. -/
theorem c8_batched_settle_all_scan (amt : Int) (e : String)
    (runPath : Int → List Hop → Except String (Option Opportunity))
    (paths : List (Option (List Hop))) :
    (batchesOf5 paths).flatten = paths ∧
    (∀ b ∈ batchesOf5 paths, b.length ≤ 5 ∧ b ≠ []) ∧
    scanAllPaths (Except.ok amt) runPath paths =
      paths.filterMap (pathContribution (runPath amt)) ∧
    scanAllPaths (Except.error e) runPath paths = [] := by
  refine ⟨chunkList_flatten 5 (by norm_num) paths,
    chunkList_mem 5 (by norm_num) paths, ?_, rfl⟩
  show List.foldl
      (fun opportunities batch =>
        opportunities ++ List.filterMap (pathContribution (runPath amt)) batch)
      [] (batchesOf5 paths) =
    List.filterMap (pathContribution (runPath amt)) paths
  rw [foldl_collect_eq_flatten_filterMap (pathContribution (runPath amt))
    (batchesOf5 paths) []]
  rw [show (batchesOf5 paths).flatten = paths from
    chunkList_flatten 5 (by norm_num) paths]
  simp

/-- Witness for C8, spec Scenario E: seven paths at batch size 5 split
into a full batch and a two-element batch; the T3 evaluation throwing
does not prevent the other four paths of its batch (nor the second
batch) from contributing their opportunities. -/
theorem c8_witness :
    (batchesOf5 sevenPaths).flatten = sevenPaths ∧
    batchesOf5 sevenPaths =
      [[pathFrom "T1", pathFrom "T2", pathFrom "T3", pathFrom "T4",
        pathFrom "T5"], [pathFrom "T6", pathFrom "T7"]] ∧
    (∀ b ∈ batchesOf5 sevenPaths, b.length ≤ 5 ∧ b ≠ []) ∧
    scanAllPaths (Except.ok 1) runWithT3Throwing sevenPaths =
      [oppTagged "T1", oppTagged "T2", oppTagged "T4", oppTagged "T5",
       oppTagged "T6", oppTagged "T7"] := by
  have h := c8_batched_settle_all_scan 1 "err" runWithT3Throwing sevenPaths
  refine ⟨h.1, ?_, h.2.1, ?_⟩
  · simp [batchesOf5, chunkList, sevenPaths]
  · rw [h.2.2.1]
    simp [sevenPaths, pathContribution, pathOutcome, runWithT3Throwing, pathFrom]


/-! ## C9 — executeArb rejects an empty step array before taking a loan -/

/-- C9: for every contract state, caller, asset and amount, `executeArb`
with an empty step array reverts — no `FlashLoanCall` is ever produced —
and when the modifiers pass the revert is the `"No steps"` require; the
documented upper bound rejects every array longer than 10 as well, so a
flash loan is only ever initiated for 1–10 steps. -/
theorem c9_executeArb_empty_reverts (cs : ContractState)
    (sender asset : Address) (amount : Int) :
    (∀ call, executeArb cs sender asset amount [] ≠ Except.ok call) ∧
    (sender = cs.owner → cs.paused = false → cs.reentered = false →
      executeArb cs sender asset amount [] = Except.error "No steps") ∧
    (∀ steps : List SwapStep, 10 < steps.length →
      ∀ call, executeArb cs sender asset amount steps ≠ Except.ok call) := by
  refine ⟨?_, ?_, ?_⟩
  · intro call
    unfold executeArb
    split_ifs <;> simp_all
  · intro h1 h2 h3
    simp [executeArb, h1, h2, h3]
  · intro steps hlen call
    unfold executeArb
    split_ifs <;> simp_all

/-- Witness for C9: a concrete owner-called, unpaused, non-reentered state
reverts with `"No steps"` on the empty array, and an 11-step array is
rejected too. -/
theorem c9_witness :
    executeArb openContract "O" "A" 5 [] = Except.error "No steps" ∧
    ∀ call, executeArb openContract "O" "A" 5 (List.replicate 11 default) ≠
      Except.ok call := by
  constructor
  · exact (c9_executeArb_empty_reverts openContract "O" "A" 5).2.1 rfl rfl rfl
  · exact (c9_executeArb_empty_reverts openContract "O" "A" 5).2.2
      (List.replicate 11 default) (by simp)

/-! ## C10 — a gas-price-ceiling skip touches neither nonce nor network -/

/-- C10: when the fetched fee exceeds the configured ceiling,
`sendPrivateTransaction` returns `null`, leaves the module nonce exactly
as it was, and performs no chain-facing action at all — no signing, no
broadcast, no nonce fetch and no resynchronization — because the fee
check precedes the nonce assignment in the source. -/
theorem c10_gas_ceiling_skip (maxGasWei : Nat) (st : MevState)
    (ev : SendEvent) (g : Nat) (hfee : ev.feeData = some g)
    (hgt : g > maxGasWei) :
    sendPrivateTransaction maxGasWei st ev =
      { response := none, state := st, actions := [] } := by
  simp [sendPrivateTransaction, hfee, hgt]

/-- Witness for C10: ceiling 100 wei, current fee 101, stored nonce 7 —
the call is skipped and the state keeps nonce 7 with no actions. -/
theorem c10_witness :
    sendPrivateTransaction 100 ⟨some 7⟩
        { feeData := some 101, chainNonceOnInit := 3, chainNonceOnReset := 4,
          gasOk := true, broadcastOk := true } =
      { response := none, state := ⟨some 7⟩, actions := [] } :=
  c10_gas_ceiling_skip 100 ⟨some 7⟩
    { feeData := some 101, chainNonceOnInit := 3, chainNonceOnReset := 4,
      gasOk := true, broadcastOk := true } 101 rfl (by norm_num)


/-! ## C6 — nonce lifecycle: lazy init, +1 per attempt, resync on failure -/

/-- C6: (1) on the first attempt that reaches nonce assignment the
counter is lazily initialized from chain state and that chain value is the
nonce broadcast; (2) an attempt with an initialized counter broadcasts
exactly the counter value and a successful send leaves the counter
incremented by exactly one; (3) a broadcast failure resynchronizes the
counter from chain state before returning; (4) hence the next attempt that
reaches nonce assignment broadcasts exactly the re-fetched chain value —
no failed counter value is blindly reused and no gap is left; and (5) two
consecutive successful sends use consecutive nonces n, n+1. -/
theorem c6_nonce_lifecycle (maxGasWei : Nat) :
    (∀ (ev : SendEvent) (g : Nat), ev.feeData = some g → ¬ g > maxGasWei →
      ev.gasOk = true →
      broadcastNonces (sendPrivateTransaction maxGasWei ⟨none⟩ ev).actions =
          [ev.chainNonceOnInit] ∧
        (sendPrivateTransaction maxGasWei ⟨none⟩ ev).actions.head? =
          some (SendAction.fetchChainNonce ev.chainNonceOnInit)) ∧
    (∀ (st : MevState) (n : Nat) (ev : SendEvent) (g : Nat),
      st.nonce = some n → ev.feeData = some g → ¬ g > maxGasWei →
      ev.gasOk = true →
      broadcastNonces (sendPrivateTransaction maxGasWei st ev).actions = [n] ∧
        (ev.broadcastOk = true →
          (sendPrivateTransaction maxGasWei st ev).state = ⟨some (n + 1)⟩ ∧
          (sendPrivateTransaction maxGasWei st ev).response = some n)) ∧
    (∀ (st : MevState) (ev : SendEvent) (g : Nat),
      ev.feeData = some g → ¬ g > maxGasWei → ev.gasOk = true →
      ev.broadcastOk = false →
      (sendPrivateTransaction maxGasWei st ev).state =
          ⟨some ev.chainNonceOnReset⟩ ∧
        (sendPrivateTransaction maxGasWei st ev).response = none) ∧
    (∀ (st : MevState) (ev ev2 : SendEvent) (g g2 : Nat),
      ev.feeData = some g → ¬ g > maxGasWei → ev.gasOk = true →
      ev.broadcastOk = false →
      ev2.feeData = some g2 → ¬ g2 > maxGasWei → ev2.gasOk = true →
      broadcastNonces (sendPrivateTransaction maxGasWei
          (sendPrivateTransaction maxGasWei st ev).state ev2).actions =
        [ev.chainNonceOnReset]) ∧
    (∀ (st : MevState) (n : Nat) (ev ev2 : SendEvent) (g g2 : Nat),
      st.nonce = some n →
      ev.feeData = some g → ¬ g > maxGasWei → ev.gasOk = true →
      ev.broadcastOk = true →
      ev2.feeData = some g2 → ¬ g2 > maxGasWei → ev2.gasOk = true →
      broadcastNonces (sendPrivateTransaction maxGasWei st ev).actions = [n] ∧
      broadcastNonces (sendPrivateTransaction maxGasWei
          (sendPrivateTransaction maxGasWei st ev).state ev2).actions =
        [n + 1]) := by
  refine ⟨?_, ?_, ?_, ?_, ?_⟩
  · intro ev g hfee hle hgas
    rcases hbc : ev.broadcastOk with _ | _ <;>
      simp [sendPrivateTransaction, getNextNonce, resetNonce, broadcastNonces,
        hfee, hle, hgas, hbc]
  · intro st n ev g hst hfee hle hgas
    rcases hbc : ev.broadcastOk with _ | _ <;>
      simp [sendPrivateTransaction, getNextNonce, resetNonce, broadcastNonces,
        hfee, hle, hgas, hbc, hst]
  · intro st ev g hfee hle hgas hbc
    simp [sendPrivateTransaction, getNextNonce, resetNonce, hfee, hle, hgas, hbc]
  · intro st ev ev2 g g2 hfee hle hgas hbc hfee2 hle2 hgas2
    have hstate : (sendPrivateTransaction maxGasWei st ev).state =
        ⟨some ev.chainNonceOnReset⟩ := by
      simp [sendPrivateTransaction, getNextNonce, resetNonce, hfee, hle,
        hgas, hbc]
    rw [hstate]
    rcases hbc2 : ev2.broadcastOk with _ | _ <;>
      simp [sendPrivateTransaction, getNextNonce, resetNonce, broadcastNonces,
        hfee2, hle2, hgas2, hbc2]
  · intro st n ev ev2 g g2 hst hfee hle hgas hbc hfee2 hle2 hgas2
    have hstate : (sendPrivateTransaction maxGasWei st ev).state =
        ⟨some (n + 1)⟩ := by
      simp [sendPrivateTransaction, getNextNonce, resetNonce, hfee, hle,
        hgas, hbc, hst]
    constructor
    · simp [sendPrivateTransaction, getNextNonce, resetNonce, broadcastNonces,
        hfee, hle, hgas, hbc, hst]
    · rw [hstate]
      rcases hbc2 : ev2.broadcastOk with _ | _ <;>
        simp [sendPrivateTransaction, getNextNonce, resetNonce, broadcastNonces,
          hfee2, hle2, hgas2, hbc2]

/-- Witness for C6: ceiling 100, fee 50.  A fresh module (nonce `null`)
initializes from chain nonce 3 and broadcasts nonce 3; a failing broadcast
from counter 9 resynchronizes to chain nonce 12 and the following attempt
broadcasts exactly 12. -/
theorem c6_witness :
    broadcastNonces (sendPrivateTransaction 100 ⟨none⟩
        { feeData := some 50, chainNonceOnInit := 3, chainNonceOnReset := 8,
          gasOk := true, broadcastOk := true }).actions = [3] ∧
    broadcastNonces (sendPrivateTransaction 100
        (sendPrivateTransaction 100 ⟨some 9⟩
          { feeData := some 50, chainNonceOnInit := 9, chainNonceOnReset := 12,
            gasOk := true, broadcastOk := false }).state
        { feeData := some 50, chainNonceOnInit := 0, chainNonceOnReset := 0,
          gasOk := true, broadcastOk := true }).actions = [12] := by
  constructor
  · exact ((c6_nonce_lifecycle 100).1
      { feeData := some 50, chainNonceOnInit := 3, chainNonceOnReset := 8,
        gasOk := true, broadcastOk := true } 50 rfl (by norm_num) rfl).1
  · exact (c6_nonce_lifecycle 100).2.2.2.1 ⟨some 9⟩
      { feeData := some 50, chainNonceOnInit := 9, chainNonceOnReset := 12,
        gasOk := true, broadcastOk := false }
      { feeData := some 50, chainNonceOnInit := 0, chainNonceOnReset := 0,
        gasOk := true, broadcastOk := true } 50 50 rfl (by norm_num) rfl rfl
      rfl (by norm_num) rfl


/-! ## C7 — single-flight scheduling: at most one pending submission -/

/-- One step preserves the start/end bookkeeping: a transition into
`.executing` is a start, a transition out is an end. -/
theorem schedStep_count (s : SchedState) (e : SchedEvent) :
    (if s.phase ≠ SchedPhase.executing ∧
        (schedStep s e).phase = SchedPhase.executing then 1 else 0) + execBit s =
      (if s.phase = SchedPhase.executing ∧
        (schedStep s e).phase ≠ SchedPhase.executing then 1 else 0) +
        execBit (schedStep s e) := by
  unfold execBit
  by_cases h1 : s.phase = SchedPhase.executing <;>
    by_cases h2 : (schedStep s e).phase = SchedPhase.executing <;>
      simp [h1, h2]

/-- Along any trace, starts and ends balance up to the pending bit. -/
theorem execStarts_eq_execEnds_add_bit :
    ∀ (es : List SchedEvent) (s : SchedState),
      execStarts s es + execBit s = execEnds s es + execBit (schedRun s es)
  | [], s => by simp [execStarts, execEnds, schedRun]
  | e :: es, s => by
    have hstep := schedStep_count s e
    have hrec := execStarts_eq_execEnds_add_bit es (schedStep s e)
    simp only [execStarts, execEnds, schedRun, List.foldl_cons] at *
    omega

/-- C7: (1) a notification arriving while the single-flight guard is set
is ignored — the handler returns without touching any state; (2) along
every event trace from the initial state, the number of submissions
started never exceeds the number of confirmations completed plus one —
a new submission never starts while a prior one's confirmation is
pending; (3) the polling loop's traces return to the idle state after
every iteration and balance starts and ends exactly, because the loop
awaits the orchestrator's outcome before the next scan. -/
theorem c7_single_flight (s : SchedState) (es : List SchedEvent)
    (fs : List Bool) (hguard : s.inFlight = true) :
    schedStep s SchedEvent.notify = s ∧
    execStarts schedInit es ≤ execEnds schedInit es + 1 ∧
    schedRun schedInit (pollTrace fs) = schedInit ∧
    execStarts schedInit (pollTrace fs) = execEnds schedInit (pollTrace fs) := by
  refine ⟨?_, ?_, ?_⟩
  · unfold schedStep
    simp [hguard]
  · have h := execStarts_eq_execEnds_add_bit es schedInit
    have hbit : execBit schedInit = 0 := rfl
    have hle : execBit (schedRun schedInit es) ≤ 1 := by
      unfold execBit
      split <;> omega
    omega
  · induction fs with
    | nil => exact ⟨rfl, rfl⟩
    | cons f rest ih =>
      rcases f with _ | _ <;>
        simpa [pollTrace, schedRun, execStarts, execEnds, schedStep,
          schedInit] using ih

/-- Witness for C7: with the guard set while scanning, a notification is
ignored; the trace notify–scanDone–notify–execDone starts one submission
and ends it; the two-iteration polling trace (one profitable scan, one
empty scan) balances exactly. -/
theorem c7_witness :
    schedStep { running := true, inFlight := true, phase := SchedPhase.scanning }
        SchedEvent.notify =
      { running := true, inFlight := true, phase := SchedPhase.scanning } ∧
    execStarts schedInit [SchedEvent.notify, SchedEvent.scanDone true,
        SchedEvent.notify, SchedEvent.execDone] ≤
      execEnds schedInit [SchedEvent.notify, SchedEvent.scanDone true,
        SchedEvent.notify, SchedEvent.execDone] + 1 ∧
    schedRun schedInit (pollTrace [true, false]) = schedInit ∧
    execStarts schedInit (pollTrace [true, false]) =
      execEnds schedInit (pollTrace [true, false]) :=
  c7_single_flight
    { running := true, inFlight := true, phase := SchedPhase.scanning }
    [SchedEvent.notify, SchedEvent.scanDone true, SchedEvent.notify,
      SchedEvent.execDone] [true, false] rfl

end ArbBot
